import Mathlib

/-!
Verification of the spatial binary report codec (`SpatialBinary.py`,
`SpatialBinaryHeader.py`): header parsing, full-body decode with zero-dropping
and node exclusion, encode, cross-file combination, and min/max statistics
with NaN/Infinity conditioning.

Python floats (IEEE doubles) are modelled by an inductive type with NaN, the
two infinities, and finite values carried as rationals; comparisons follow
IEEE semantics (every comparison against NaN is false).  Files are modelled
at word granularity: the 8 header bytes are handled by a separate byte-level
decoder, and the body is the raw uint32 node-id table plus the per-timestep
value blocks (the float32 byte codec is injective on representable values, so
value words are kept at value level).
-/

set_option autoImplicit false
set_option maxRecDepth 40000

namespace VisTools

/-- A Python float: NaN, an infinity, or a finite value (idealized as an
arbitrary rational; the values exercised by the codec are exact). -/
inductive PF where
  | nan : PF
  | inf : PF
  | ninf : PF
  | fin : ℚ → PF
deriving DecidableEq

/-- `sys.float_info.max`: the largest finite IEEE double,
`(2 - 2^-52)·2^1023 = 2^1024 - 2^971` (written over ℕ so the kernel can
evaluate it). -/
def sysFloatInfoMax : ℚ := ((2 ^ 1024 - 2 ^ 971 : ℕ) : ℚ)

/-- `sys.float_info.min`: the smallest positive normalized IEEE double,
`2^-1022`.  Note that it is positive, not the most negative double. -/
def sysFloatInfoMin : ℚ := mkRat 1 (2 ^ 1022)

/-- IEEE `<` on Python floats: any comparison involving NaN is false. -/
def PF.lt : PF → PF → Bool
  | .nan, _ => false
  | _, .nan => false
  | .ninf, .ninf => false
  | .ninf, _ => true
  | _, .ninf => false
  | .inf, _ => false
  | _, .inf => true
  | .fin a, .fin b => decide (a < b)

/-- IEEE `value == 0.0` (false for NaN and the infinities). -/
def PF.isZero : PF → Bool
  | .fin q => decide (q = 0)
  | _ => false

/-- IEEE addition (idealized: finite sums are exact; the finite case is the
cross-multiplication formula for exact rational addition, written with `mkRat`
so the kernel can evaluate it). -/
def PF.add : PF → PF → PF
  | .nan, _ => .nan
  | _, .nan => .nan
  | .inf, .ninf => .nan
  | .ninf, .inf => .nan
  | .inf, _ => .inf
  | _, .inf => .inf
  | .ninf, _ => .ninf
  | _, .ninf => .ninf
  | .fin a, .fin b =>
      .fin (mkRat (a.num * (b.den : Int) + b.num * (a.den : Int))
        (a.den * b.den))

/-- `SpatialBinary._condition_value` (SpatialBinary.py lines 485-493): NaN
becomes `0`, `+Infinity` becomes `sys.float_info.max`, `-Infinity` becomes
`sys.float_info.min`; finite values pass through unchanged. -/
def condition_value : PF → PF
  | .nan => .fin 0
  | .inf => .fin sysFloatInfoMax
  | .ninf => .fin sysFloatInfoMin
  | .fin q => .fin q

/-- Decidable equality for `Except` results (not derived in core), so that
concrete codec runs can be checked by evaluation. -/
def exceptDecEq {ε α : Type} [DecidableEq ε] [DecidableEq α] :
    (a b : Except ε α) → Decidable (a = b)
  | .error e1, .error e2 =>
      if h : e1 = e2 then .isTrue (by rw [h])
      else .isFalse (fun hc => h (by injection hc))
  | .error _, .ok _ => .isFalse (fun hc => Except.noConfusion hc)
  | .ok _, .error _ => .isFalse (fun hc => Except.noConfusion hc)
  | .ok a1, .ok a2 =>
      if h : a1 = a2 then .isTrue (by rw [h])
      else .isFalse (fun hc => h (by injection hc))

instance {ε α : Type} [DecidableEq ε] [DecidableEq α] :
    DecidableEq (Except ε α) := exceptDecEq

/-- A Python `dict<node_id, float>`: an insertion-ordered association list
whose keys stay unique as long as it is only grown through `dictInsert`. -/
abbrev Dict := List (Int × PF)

/-- `node_id in d`. -/
def dictMem (d : Dict) (k : Int) : Bool := d.any (fun p => p.1 == k)

/-- `d[k]`, `none` when the key is missing (Python raises KeyError). -/
def dictGet (d : Dict) (k : Int) : Option PF :=
  (d.find? (fun p => p.1 == k)).map (fun p => p.2)

/-- `d[k] = v`: overwrite in place when the key is present (Python dicts keep
an overwritten key at its original position), else append. -/
def dictInsert (d : Dict) (k : Int) (v : PF) : Dict :=
  if dictMem d k then d.map (fun p => if p.1 == k then (k, v) else p)
  else d ++ [(k, v)]

/-- `list(d.keys())` in insertion order. -/
def dictKeys (d : Dict) : List Int := d.map (fun p => p.1)

/-!  Byte-level header codec (`SpatialBinaryHeader.__init__`, lines 52-63). -/

/-- The value of 4 bytes read as a little-endian unsigned 32-bit integer. -/
def unpackLE32 (b0 b1 b2 b3 : Nat) : Nat :=
  b0 + 256 * b1 + 65536 * b2 + 16777216 * b3

/-- Reinterpret a uint32 word as a two's-complement signed 32-bit integer. -/
def toSigned32 (w : Nat) : Int :=
  if w < 2 ^ 31 then (w : Int) else (w : Int) - 2 ^ 32

/-- `struct.unpack("<i", ...)` of 4 bytes: little-endian *signed* 32-bit. -/
def unpackLEi32 (b0 b1 b2 b3 : Nat) : Int := toSigned32 (unpackLE32 b0 b1 b2 b3)

/-- `SpatialBinaryHeader.__init__`: `read(8)` takes the first (up to 8) bytes
of the file; bytes 0-3 unpack as `node_count` and bytes 4-7 as
`timestep_count`, both with `struct.unpack("<i", ...)`.  When the file holds
fewer than 8 bytes a slice is short and `struct.unpack` raises. -/
def readHeader (file : List Nat) : Option (Int × Int) :=
  match file.take 8 with
  | [b0, b1, b2, b3, b4, b5, b6, b7] =>
      some (unpackLEi32 b0 b1 b2 b3, unpackLEi32 b4 b5 b6 b7)
  | _ => none

/-!  The file body and the decoded grid. -/

/-- A spatial report file at word granularity: the node-id table as raw uint32
words, and one block of float values per timestep.  The two header counts of a
well-formed file (`file_size == 8 + 4*N + 4*N*T`) equal `node_id_words.length`
and `blocks.length`, so they are left implicit; the raw 8 header bytes are
modelled separately by `readHeader`. -/
structure BinFile where
  node_id_words : List Nat
  blocks : List (List PF)
deriving DecidableEq

/-- Well-formedness: node-id words fit in 32 bits and every timestep block
carries exactly `node_count` values. -/
def BinFile.wf (f : BinFile) : Prop :=
  (∀ w ∈ f.node_id_words, w < 2 ^ 32) ∧
    ∀ b ∈ f.blocks, b.length = f.node_id_words.length

instance (f : BinFile) : Decidable f.wf := by
  unfold BinFile.wf; infer_instance

/-- The decoded report (`SpatialBinary.__init__`, lines 94-108):
`excluded_node_ids` is carried as a list used only for membership. -/
structure SpatialBinary where
  drop_zeros : Bool
  source_file : String
  channel_name : String
  node_count : Int
  value_min : PF
  value_max : PF
  excluded_node_ids : List Int
  timesteps : List Dict
deriving DecidableEq

/-- The min/max update of `_read_binary` (lines 466-469): one exclusion check
guards both running updates; comparisons are IEEE (`<` and `>`). -/
def statStep (excl : List Int) (mm : PF × PF) (p : Int × PF) : PF × PF :=
  if excl.contains p.1 then mm
  else ((if PF.lt p.2 mm.1 then p.2 else mm.1),
        (if PF.lt mm.2 p.2 then p.2 else mm.2))

/-- The storage update of `_read_binary` (lines 470-472): with `drop_zeros` a
zero value is skipped, otherwise `entries[node_ids[i]] = values[i]`. -/
def entryStep (dz : Bool) (d : Dict) (p : Int × PF) : Dict :=
  if dz && p.2.isZero then d else dictInsert d p.1 p.2

/-- One iteration of `_read_binary`'s inner loop (lines 463-472): the running
min/max update followed by the zero-drop decision and the store. -/
def readStep (dz : Bool) (excl : List Int) (st : Dict × PF × PF)
    (p : Int × PF) : Dict × PF × PF :=
  (entryStep dz st.1 p, statStep excl st.2 p)

/-- One timestep of `_read_binary` (lines 458-473): fold the positional
node-id/value pairs of the block, starting from an empty entries dict and the
incoming running min/max. -/
def readBlock (dz : Bool) (excl : List Int) (node_ids : List Int)
    (block : List PF) (mm : PF × PF) : Dict × PF × PF :=
  (List.zip node_ids block).foldl (readStep dz excl) ([], mm)

/-- All timesteps of `_read_binary`: process the blocks in order, collecting
the per-timestep dicts and threading the running min/max through. -/
def readBlocks (dz : Bool) (excl : List Int) (node_ids : List Int) :
    List (List PF) → PF × PF → List Dict × PF × PF
  | [], mm => ([], mm)
  | b :: bs, mm =>
      let st := readBlock dz excl node_ids b mm
      let rest := readBlocks dz excl node_ids bs st.2
      (st.1 :: rest.1, rest.2)

/-- `os.path.basename`: the characters after the last path separator. -/
def basenameChars (cs : List Char) : List Char :=
  cs.foldl (fun acc c => if c = '/' then [] else acc ++ [c]) []

/-- `os.path.splitext(...)[0]`: strip the last-dot extension when present. -/
def splitextChars (cs : List Char) : List Char :=
  let r := cs.reverse
  if ('.') ∈ r then ((r.dropWhile (fun c => !(c = '.'))).drop 1).reverse
  else cs

/-- Channel name derivation (`_read_binary` lines 443-444): basename, strip
the 14-character prefix `"SpatialReport_"`, drop the extension. -/
def channelNameOf (path : String) : String :=
  String.mk (splitextChars ((basenameChars path.data).drop 14))

/-- `SpatialBinary(path, drop_zeros, excluded_node_ids)` reading a well-formed
file (`__init__` + `_read_binary`, lines 439-482): decode the node-id words as
signed int32 (`array("i")`), process every timestep block updating the running
min/max from their `sys.float_info` sentinels, then condition the result. -/
def readBinaryFile (path : String) (f : BinFile) (dz : Bool)
    (excl : List Int) : SpatialBinary :=
  let node_ids := f.node_id_words.map toSigned32
  let st := readBlocks dz excl node_ids f.blocks
    (PF.fin sysFloatInfoMax, PF.fin sysFloatInfoMin)
  { drop_zeros := dz
    source_file := path
    channel_name := channelNameOf path
    node_count := Int.ofNat f.node_id_words.length
    value_min := condition_value st.2.1
    value_max := condition_value st.2.2
    excluded_node_ids := excl
    timesteps := st.1 }

/-- The failure classes of `write_binary`, in the order the code can hit
them: the explicit sparse `ValueError`, the `IndexError` from `timesteps[0]`
on an empty grid, the `OverflowError` from `array("I", ...)` on a node id
outside uint32, the `struct.error` from packing a count outside int32, and
the `KeyError` from a timestep missing a node id.  Only the last occurs after
the output file has been opened. -/
inductive WriteErr where
  | sparse
  | emptyIndex
  | idOverflow
  | countOverflow
  | missingKey
deriving DecidableEq

/-- `values_dict[node_id]` for each node id in order; a missing key raises
KeyError (lines 233-236). -/
def lookupAll (d : Dict) : List Int → Option (List PF)
  | [] => some []
  | k :: ks =>
      match dictGet d k, lookupAll d ks with
      | some v, some vs => some (v :: vs)
      | _, _ => none

/-- The value blocks of `write_binary`'s output: one looked-up block per
timestep, in the fixed node-id order. -/
def lookupBlocks (ds : List Dict) (ids : List Int) : Option (List (List PF)) :=
  match ds with
  | [] => some []
  | d :: rest =>
      match lookupAll d ids, lookupBlocks rest ids with
      | some b, some bs => some (b :: bs)
      | _, _ => none

/-- `SpatialBinary.write_binary` (lines 213-243): refuse sparse grids, sort
the first timestep's keys ascending to fix the node order for the whole file,
emit the two counts (`struct.pack("<i", ...)`), the node-id table
(`array("I")`: unsigned words), and one float block per timestep in that key
order.  On success `source_file` becomes the written path; on any error no
complete file is produced. -/
def writeBinary (g : SpatialBinary) (path : String) :
    Except WriteErr (BinFile × SpatialBinary) :=
  if g.drop_zeros then .error .sparse
  else
    match g.timesteps with
    | [] => .error .emptyIndex
    | ts0 :: _ =>
      let ids := List.insertionSort (fun a b => a ≤ b) (dictKeys ts0)
      if ¬ ∀ k ∈ ids, 0 ≤ k ∧ k < 2 ^ 32 then .error .idOverflow
      else if 2 ^ 31 ≤ ids.length ∨ 2 ^ 31 ≤ g.timesteps.length then
        .error .countOverflow
      else
        match lookupBlocks g.timesteps ids with
        | none => .error .missingKey
        | some blocks =>
            .ok ({ node_id_words := ids.map Int.toNat, blocks := blocks },
                 { g with source_file := path })

/-- The inner loop of `combine` (lines 356-362): iterate a snapshot of the
first grid's keys for this timestep, combine the two values (KeyError when the
second dict lacks the key), update the running min/max with IEEE comparisons,
and overwrite the first dict in place. -/
def combineDict (fn : PF → PF → PF) :
    List Int → Dict → Dict → PF × PF → Option (Dict × PF × PF)
  | [], ts1, _, mm => some (ts1, mm)
  | k :: ks, ts1, ts2, mm =>
      match dictGet ts1 k, dictGet ts2 k with
      | some v1, some v2 =>
          let nv := fn v1 v2
          let mm' := ((if PF.lt nv mm.1 then nv else mm.1),
                      (if PF.lt mm.2 nv then nv else mm.2))
          combineDict fn ks (dictInsert ts1 k nv) ts2 mm'
      | _, _ => none

/-- The outer loop of `combine` (lines 353-362): all timesteps in parallel. -/
def combineSteps (fn : PF → PF → PF) :
    List Dict → List Dict → PF × PF → Option (List Dict × PF × PF)
  | [], _, mm => some ([], mm)
  | ts1 :: rest1, ts2 :: rest2, mm =>
      match combineDict fn (dictKeys ts1) ts1 ts2 mm with
      | some (d, mm') =>
          match combineSteps fn rest1 rest2 mm' with
          | some (ds, mmf) => some (d :: ds, mmf)
          | none => none
      | none => none
  | _ :: _, [], _ => none

/-- `SpatialBinary.combine` (lines 278-368): load both files densely (the
constructor defaults: `drop_zeros=False`, no exclusions), validate the
dimensions and the first-timestep node-id *lists*, then combine every value,
recomputing min/max from the `sys.float_info` sentinels and conditioning
them.  The result keeps no source path and takes the given channel name. -/
def combine (p1 : String) (f1 : BinFile) (p2 : String) (f2 : BinFile)
    (channel_name : String) (combine_func : PF → PF → PF) :
    Except String SpatialBinary :=
  let sb1 := readBinaryFile p1 f1 false []
  let sb2 := readBinaryFile p2 f2 false []
  if sb1.drop_zeros || sb2.drop_zeros then
    .error ("One or more inputs to combine have drop_zeros set which makes them inappropriate for combine.")
  else if sb1.node_count ≠ sb2.node_count then
    .error ("Combine's inputs do not represent the same number of nodes.")
  else if sb1.timesteps.length ≠ sb2.timesteps.length then
    .error ("Combine's inputs do not represent the same number of timesteps.")
  else if sb1.timesteps.isEmpty then
    .error ("IndexError: list index out of range")
  else if dictKeys sb1.timesteps.headI ≠ dictKeys sb2.timesteps.headI then
    .error ("Combine's inputs do not represent the same node ids.")
  else
    match combineSteps combine_func sb1.timesteps sb2.timesteps
        (PF.fin sysFloatInfoMax, PF.fin sysFloatInfoMin) with
    | none => .error ("KeyError")
    | some (ds, mmf) =>
        .ok { sb1 with
              source_file := ""
              channel_name := channel_name
              value_min := condition_value mmf.1
              value_max := condition_value mmf.2
              timesteps := ds }

/-- `SpatialBinary.add_combiner` (lines 389-402). -/
def add_combiner (value1 value2 : PF) : PF := PF.add value1 value2

/-- The file with node `X`'s column removed ("as if X were absent", for the
exclusion claim): drop `X` from the node-id table and the corresponding
positional entry from every timestep block. -/
def removeNode (X : Int) (f : BinFile) : BinFile :=
  { node_id_words := f.node_id_words.filter (fun w => toSigned32 w != X)
    blocks := f.blocks.map (fun b =>
      (((f.node_id_words.map toSigned32).zip b).filter
        (fun p => p.1 != X)).map Prod.snd) }

/-!  ## General lemmas about the decode loop -/

theorem condition_value_fin (q : ℚ) : condition_value (.fin q) = .fin q := rfl

/-- The inner loop splits into an entries fold and an independent stats
fold: the store never reads the running min/max and the min/max update never
reads the entries. -/
theorem foldl_readStep_split (dz : Bool) (excl : List Int)
    (l : List (Int × PF)) (e : Dict) (mm : PF × PF) :
    l.foldl (readStep dz excl) (e, mm) =
      (l.foldl (entryStep dz) e, l.foldl (statStep excl) mm) := by
  induction l generalizing e mm with
  | nil => rfl
  | cons p l ih => simpa [readStep] using ih (entryStep dz e p) (statStep excl mm p)

/-- `readBlocks` splits the same way: the timestep dicts are a map over the
blocks (each from an empty dict) and the stats are a fold over the blocks. -/
theorem readBlocks_eq (dz : Bool) (excl : List Int) (ids : List Int)
    (bs : List (List PF)) (mm : PF × PF) :
    readBlocks dz excl ids bs mm =
      (bs.map (fun b => ((List.zip ids b).foldl (entryStep dz) [])),
       bs.foldl (fun m b => (List.zip ids b).foldl (statStep excl) m) mm) := by
  induction bs generalizing mm with
  | nil => rfl
  | cons b bs ih =>
      simp only [readBlocks, readBlock, foldl_readStep_split, List.map_cons,
        List.foldl_cons, ih]

/-- A min/max pass over pairs whose node ids are all excluded changes
nothing. -/
theorem foldl_statStep_excluded (excl : List Int) (l : List (Int × PF))
    (mm : PF × PF) (h : ∀ p ∈ l, excl.contains p.1 = true) :
    l.foldl (statStep excl) mm = mm := by
  induction l generalizing mm with
  | nil => rfl
  | cons p l ih =>
      have hp := h p (List.mem_cons_self p l)
      simp only [List.foldl_cons, statStep, hp, if_true]
      exact ih mm fun q hq => h q (List.mem_cons_of_mem p hq)

/-- The stats fold over whole blocks is the identity when no pair of any
block can update it. -/
theorem statBlocks_id (excl : List Int) (ids : List Int)
    (bs : List (List PF)) (mm : PF × PF)
    (h : ∀ b ∈ bs, ∀ p ∈ List.zip ids b, excl.contains p.1 = true) :
    bs.foldl (fun m b => (List.zip ids b).foldl (statStep excl) m) mm = mm := by
  induction bs generalizing mm with
  | nil => rfl
  | cons b bs ih =>
      simp only [List.foldl_cons,
        foldl_statStep_excluded excl _ mm (h b (List.mem_cons_self b bs))]
      exact ih mm fun b' hb' => h b' (List.mem_cons_of_mem b hb')

theorem dictMem_eq_true_iff (d : Dict) (k : Int) :
    dictMem d k = true ↔ k ∈ dictKeys d := by
  simp only [dictMem, dictKeys, List.any_eq_true, List.mem_map, beq_iff_eq]

theorem dictInsert_of_not_mem (d : Dict) (k : Int) (v : PF)
    (h : dictMem d k = false) : dictInsert d k v = d ++ [(k, v)] := by
  simp [dictInsert, h]

/-- The storage fold of the decode loop, for pairwise-distinct keys that miss
the accumulated dict: it appends exactly the pairs that survive the zero-drop
decision. -/
theorem foldl_entryStep_append (dz : Bool) :
    ∀ (l : List (Int × PF)) (d : Dict),
      (dictKeys d).Disjoint (l.map Prod.fst) → (l.map Prod.fst).Nodup →
      l.foldl (entryStep dz) d = d ++ l.filter (fun p => !(dz && p.2.isZero))
  | [], d, _, _ => by simp
  | p :: l, d, hdisj, hnodup => by
    simp only [List.map_cons, List.nodup_cons] at hnodup
    by_cases hz : (dz && p.2.isZero) = true
    · have : entryStep dz d p = d := by simp [entryStep, hz]
      rw [List.foldl_cons, this,
        foldl_entryStep_append dz l d
          (fun a ha hb => hdisj ha (List.mem_cons_of_mem _ hb)) hnodup.2]
      have hpred : ¬((!(dz && p.2.isZero)) = true) := by simp [hz]
      rw [List.filter_cons, if_neg hpred]
    · have hmem : dictMem d p.1 = false := by
        by_contra hc
        have : dictMem d p.1 = true := by
          cases h : dictMem d p.1
          · exact absurd h hc
          · rfl
        exact hdisj ((dictMem_eq_true_iff d p.1).mp this)
          (List.mem_cons_self _ _)
      have hstep : entryStep dz d p = d ++ [p] := by
        simp [entryStep, hz, dictInsert_of_not_mem d p.1 p.2 hmem]
      have hdisj' : (dictKeys (d ++ [p])).Disjoint (l.map Prod.fst) := by
        intro a ha hb
        simp only [dictKeys, List.map_append, List.mem_append, List.map_cons,
          List.mem_singleton, List.map_nil, List.mem_cons] at ha
        rcases ha with ha | ha
        · exact hdisj ha (List.mem_cons_of_mem _ hb)
        · rcases ha with ha | ha
          · exact hnodup.1 (ha ▸ hb)
          · exact absurd ha (List.not_mem_nil a)
      rw [List.foldl_cons, hstep,
        foldl_entryStep_append dz l (d ++ [p]) hdisj' hnodup.2]
      have hpred : (!(dz && p.2.isZero)) = true := by
        cases h : (dz && p.2.isZero)
        · rfl
        · exact absurd h hz
      rw [List.filter_cons, if_pos hpred, List.append_assoc]
      rfl

theorem dictMem_false_find?_none (d : Dict) (k : Int)
    (h : dictMem d k = false) : d.find? (fun p => p.1 == k) = none := by
  rw [List.find?_eq_none]
  intro p hp hpk
  have hm : dictMem d k = true := by
    unfold dictMem
    rw [List.any_eq_true]
    exact ⟨p, hp, hpk⟩
  rw [hm] at h
  exact Bool.noConfusion h

theorem find?_map_overwrite (k : Int) (v : PF) :
    ∀ (d : Dict), dictMem d k = true →
      (d.map (fun p => if p.1 == k then (k, v) else p)).find?
          (fun p => p.1 == k) = some (k, v)
  | [], h => Bool.noConfusion h
  | p :: d, h => by
    by_cases hp : p.1 = k
    · have hbeq : (p.1 == k) = true := by simpa using hp
      rw [List.map_cons, hbeq]
      simp only [if_true]
      exact List.find?_cons_of_pos _ (by simp)
    · have hbeq : (p.1 == k) = false := by simpa using hp
      have hm : dictMem d k = true := by
        cases hdm : dictMem d k
        · exfalso
          unfold dictMem at h hdm
          simp only [List.any_cons, hbeq, Bool.false_or] at h
          rw [hdm] at h
          exact Bool.noConfusion h
        · rfl
      rw [List.map_cons, hbeq]
      simp only [Bool.false_eq_true, if_false]
      rw [List.find?_cons_of_neg _ (by simp [hp])]
      exact find?_map_overwrite k v d hm

theorem find?_map_other (k k' : Int) (v : PF) (hne : k' ≠ k) :
    ∀ (d : Dict),
      (d.map (fun p => if p.1 == k then (k, v) else p)).find?
          (fun p => p.1 == k') = d.find? (fun p => p.1 == k')
  | [] => rfl
  | p :: d => by
    by_cases hp : p.1 = k
    · have hbeq : (p.1 == k) = true := by simpa using hp
      rw [List.map_cons, hbeq]
      simp only [if_true]
      rw [List.find?_cons_of_neg _ (by simp [Ne.symm hne]),
        List.find?_cons_of_neg _ (by simp [hp, Ne.symm hne])]
      exact find?_map_other k k' v hne d
    · have hbeq : (p.1 == k) = false := by simpa using hp
      rw [List.map_cons, hbeq]
      simp only [Bool.false_eq_true, if_false]
      by_cases hp' : p.1 = k'
      · rw [List.find?_cons_of_pos _ (by simp [hp']),
          List.find?_cons_of_pos _ (by simp [hp'])]
      · rw [List.find?_cons_of_neg _ (by simp [hp']),
          List.find?_cons_of_neg _ (by simp [hp'])]
        exact find?_map_other k k' v hne d

/-- Looking up the key just written returns the written value. -/
theorem dictGet_dictInsert_self (d : Dict) (k : Int) (v : PF) :
    dictGet (dictInsert d k v) k = some v := by
  unfold dictInsert dictGet
  cases hm : dictMem d k
  · simp only [Bool.false_eq_true, if_false]
    rw [List.find?_append, dictMem_false_find?_none d k hm]
    simp
  · simp only [if_true]
    rw [find?_map_overwrite k v d hm]
    rfl

/-- Writing one key leaves every other key's lookup unchanged. -/
theorem dictGet_dictInsert_ne (d : Dict) (k k' : Int) (v : PF)
    (hne : k' ≠ k) : dictGet (dictInsert d k v) k' = dictGet d k' := by
  unfold dictInsert dictGet
  cases hm : dictMem d k
  · simp only [Bool.false_eq_true, if_false]
    rw [List.find?_append]
    have hsingle : ([(k, v)].find? (fun p => p.1 == k')) = none := by
      simp [Ne.symm hne]
    rw [hsingle]
    simp
  · simp only [if_true]
    rw [find?_map_other k k' v hne d]

theorem mem_dictKeys_of_dictGet (d : Dict) (k : Int) (v : PF)
    (h : dictGet d k = some v) : k ∈ dictKeys d := by
  unfold dictGet at h
  cases hf : d.find? (fun p => p.1 == k) with
  | none => rw [hf] at h; cases h
  | some p =>
      have hpk := List.find?_some hf
      have hmem : p ∈ d := List.mem_of_find?_eq_some hf
      exact List.mem_map.mpr ⟨p, hmem, by simpa using hpk⟩

theorem dictKeys_dictInsert_of_mem (d : Dict) (k : Int) (v : PF)
    (h : dictMem d k = true) : dictKeys (dictInsert d k v) = dictKeys d := by
  unfold dictInsert
  rw [if_pos h]
  unfold dictKeys
  rw [List.map_map]
  refine List.map_congr_left fun p _ => ?_
  by_cases hp : p.1 = k
  · simp [Function.comp, hp]
  · simp [Function.comp, hp]

theorem dictKeys_dictInsert_of_not_mem (d : Dict) (k : Int) (v : PF)
    (h : dictMem d k = false) :
    dictKeys (dictInsert d k v) = dictKeys d ++ [k] := by
  unfold dictInsert
  rw [if_neg (by simp [h])]
  simp [dictKeys]

theorem nodup_dictKeys_dictInsert (d : Dict) (k : Int) (v : PF)
    (h : (dictKeys d).Nodup) : (dictKeys (dictInsert d k v)).Nodup := by
  cases hm : dictMem d k
  · rw [dictKeys_dictInsert_of_not_mem d k v hm]
    have hk : k ∉ dictKeys d := fun hc => by
      rw [(dictMem_eq_true_iff d k).mpr hc] at hm
      exact Bool.noConfusion hm
    rw [List.nodup_append]
    refine ⟨h, List.nodup_singleton k, ?_⟩
    intro a ha hb
    rw [List.mem_singleton] at hb
    exact hk (hb ▸ ha)
  · rw [dictKeys_dictInsert_of_mem d k v hm]
    exact h

/-- The storage fold keeps dict keys pairwise distinct. -/
theorem nodup_dictKeys_foldl_entryStep (dz : Bool) :
    ∀ (l : List (Int × PF)) (d : Dict), (dictKeys d).Nodup →
      (dictKeys (l.foldl (entryStep dz) d)).Nodup
  | [], _, h => h
  | p :: l, d, h => by
      rw [List.foldl_cons]
      apply nodup_dictKeys_foldl_entryStep dz l
      unfold entryStep
      by_cases hz : (dz && p.2.isZero) = true
      · rw [if_pos hz]; exact h
      · rw [if_neg hz]; exact nodup_dictKeys_dictInsert d p.1 p.2 h

/-- Every timestep dict produced by a load has pairwise-distinct keys. -/
theorem loaded_timesteps_nodup (path : String) (f : BinFile) (dz : Bool)
    (excl : List Int) :
    ∀ ts ∈ (readBinaryFile path f dz excl).timesteps, (dictKeys ts).Nodup := by
  intro ts hts
  simp only [readBinaryFile, readBlocks_eq] at hts
  rcases List.mem_map.mp hts with ⟨b, _, hb⟩
  rw [← hb]
  exact nodup_dictKeys_foldl_entryStep dz _ [] List.nodup_nil

/-- What one pass of `combine`'s inner loop computes: keys outside the
iterated snapshot keep their old binding; every snapshot key ends bound to
`combine_func` of the two incoming values. -/
theorem combineDict_spec (fn : PF → PF → PF) :
    ∀ (ks : List Int) (ts1 ts2 : Dict) (mm : PF × PF) (d' : Dict)
      (mm' : PF × PF),
      combineDict fn ks ts1 ts2 mm = some (d', mm') → ks.Nodup →
      (∀ k, k ∉ ks → dictGet d' k = dictGet ts1 k) ∧
      (∀ k, k ∈ ks → ∃ v1 v2, dictGet ts1 k = some v1 ∧
          dictGet ts2 k = some v2 ∧ dictGet d' k = some (fn v1 v2))
  | [], ts1, ts2, mm, d', mm', h, _ => by
      unfold combineDict at h
      injection h with h
      injection h with h1 h2
      subst h1
      exact ⟨fun k _ => rfl, fun k hk => absurd hk (List.not_mem_nil k)⟩
  | k₀ :: ks, ts1, ts2, mm, d', mm', h, hnd => by
      unfold combineDict at h
      cases h1 : dictGet ts1 k₀ with
      | none => rw [h1] at h; exact Option.noConfusion h
      | some v1 =>
        cases h2 : dictGet ts2 k₀ with
        | none => rw [h1, h2] at h; exact Option.noConfusion h
        | some v2 =>
          rw [h1, h2] at h
          simp only [List.nodup_cons] at hnd
          have ih := combineDict_spec fn ks
            (dictInsert ts1 k₀ (fn v1 v2)) ts2 _ d' mm' h hnd.2
          constructor
          · intro k hk
            have hk0 : k ≠ k₀ := fun he => hk (he ▸ List.mem_cons_self k₀ ks)
            have hks : k ∉ ks := fun hm => hk (List.mem_cons_of_mem _ hm)
            rw [ih.1 k hks, dictGet_dictInsert_ne _ _ _ _ hk0]
          · intro k hk
            rcases List.mem_cons.mp hk with rfl | hk'
            · refine ⟨v1, v2, h1, h2, ?_⟩
              rw [ih.1 k hnd.1, dictGet_dictInsert_self]
            · rcases ih.2 k hk' with ⟨w1, w2, hw1, hw2, hw3⟩
              have hk0 : k ≠ k₀ := fun he => hnd.1 (he ▸ hk')
              rw [dictGet_dictInsert_ne ts1 k₀ k (fn v1 v2) hk0] at hw1
              exact ⟨w1, w2, hw1, hw2, hw3⟩

/-- `combine`'s outer loop, timestep by timestep. -/
theorem combineSteps_spec (fn : PF → PF → PF) :
    ∀ (l1 l2 : List Dict) (mm : PF × PF) (ds : List Dict) (mmf : PF × PF),
      combineSteps fn l1 l2 mm = some (ds, mmf) →
      (∀ d ∈ l1, (dictKeys d).Nodup) →
      ds.length = l1.length ∧
      ∀ i k v1 v2, dictGet (l1.getD i []) k = some v1 →
          dictGet (l2.getD i []) k = some v2 →
          dictGet (ds.getD i []) k = some (fn v1 v2)
  | [], l2, mm, ds, mmf, h, _ => by
      unfold combineSteps at h
      injection h with h
      injection h with h1 h2
      subst h1
      refine ⟨rfl, fun i k v1 v2 hv1 _ => ?_⟩
      simp [dictGet] at hv1
  | ts1 :: rest1, [], mm, ds, mmf, h, _ => by
      unfold combineSteps at h
      exact Option.noConfusion h
  | ts1 :: rest1, ts2 :: rest2, mm, ds, mmf, h, hnd => by
      unfold combineSteps at h
      cases hc : combineDict fn (dictKeys ts1) ts1 ts2 mm with
      | none => rw [hc] at h; exact Option.noConfusion h
      | some dmm =>
        obtain ⟨d1, mm1⟩ := dmm
        rw [hc] at h
        dsimp only at h
        cases hs : combineSteps fn rest1 rest2 mm1 with
        | none => rw [hs] at h; exact Option.noConfusion h
        | some dsmm =>
            obtain ⟨ds', mmf'⟩ := dsmm
            rw [hs] at h
            dsimp only at h
            injection h with h
            injection h with hds hmm
            subst hds
            have ihnd : ∀ d ∈ rest1, (dictKeys d).Nodup :=
              fun d hd => hnd d (List.mem_cons_of_mem _ hd)
            have ih := combineSteps_spec fn rest1 rest2 mm1 ds' mmf' hs ihnd
            have hcd := combineDict_spec fn (dictKeys ts1) ts1 ts2 mm d1 mm1
              hc (hnd ts1 (List.mem_cons_self _ _))
            refine ⟨by simp [ih.1], fun i k v1 v2 hv1 hv2 => ?_⟩
            cases i with
            | zero =>
                simp only [List.getD_cons_zero] at hv1 hv2 ⊢
                rcases hcd.2 k (mem_dictKeys_of_dictGet ts1 k v1 hv1)
                  with ⟨w1, w2, hw1, hw2, hw3⟩
                rw [hv1] at hw1
                rw [hv2] at hw2
                injection hw1 with hw1
                injection hw2 with hw2
                rw [hw1, hw2]
                exact hw3
            | succ i =>
                simp only [List.getD_cons_succ] at hv1 hv2 ⊢
                exact ih.2 i k v1 v2 hv1 hv2

theorem toSigned32_range (w : Nat) (h : w < 2 ^ 32) :
    -(2 ^ 31) ≤ toSigned32 w ∧ toSigned32 w < 2 ^ 31 := by
  unfold toSigned32
  split <;> omega

theorem toSigned32_toNat (k : Int) (h0 : 0 ≤ k) (h1 : k < 2 ^ 31) :
    toSigned32 k.toNat = k := by
  unfold toSigned32
  split <;> omega

/-- Any key of a dict built by the storage fold comes from the accumulated
dict or from the pairs folded in. -/
theorem mem_dictKeys_foldl_entryStep (dz : Bool) :
    ∀ (l : List (Int × PF)) (d : Dict) (k : Int),
      k ∈ dictKeys (l.foldl (entryStep dz) d) →
      k ∈ dictKeys d ∨ k ∈ l.map Prod.fst
  | [], _, _, h => Or.inl h
  | p :: l, d, k, h => by
      rw [List.foldl_cons] at h
      rcases mem_dictKeys_foldl_entryStep dz l (entryStep dz d p) k h
        with h' | h'
      · unfold entryStep at h'
        by_cases hz : (dz && p.2.isZero) = true
        · rw [if_pos hz] at h'
          exact Or.inl h'
        · rw [if_neg hz] at h'
          cases hm : dictMem d p.1
          · rw [dictKeys_dictInsert_of_not_mem d p.1 p.2 hm] at h'
            rcases List.mem_append.mp h' with h'' | h''
            · exact Or.inl h''
            · rw [List.mem_singleton] at h''
              refine Or.inr ?_
              rw [h'']
              exact List.mem_map.mpr ⟨p, List.mem_cons_self p l, rfl⟩
          · rw [dictKeys_dictInsert_of_mem d p.1 p.2 hm] at h'
            exact Or.inl h'
      · refine Or.inr ?_
        rw [List.map_cons]
        exact List.mem_cons_of_mem _ h'

/-- Every key of a loaded timestep dict is a decoded node id of the file. -/
theorem loaded_timesteps_keys (path : String) (f : BinFile) (dz : Bool)
    (excl : List Int) (hwf : f.wf) :
    ∀ ts ∈ (readBinaryFile path f dz excl).timesteps,
      ∀ k ∈ dictKeys ts, k ∈ f.node_id_words.map toSigned32 := by
  intro ts hts k hk
  simp only [readBinaryFile, readBlocks_eq] at hts
  rcases List.mem_map.mp hts with ⟨b, hb, hfold⟩
  rw [← hfold] at hk
  rcases mem_dictKeys_foldl_entryStep dz _ [] k hk with h' | h'
  · exact absurd h' (List.not_mem_nil k)
  · rw [List.map_fst_zip _ _ (by simp [hwf.2 b hb])] at h'
    exact h'

theorem lookupAll_length (d : Dict) :
    ∀ (ks : List Int) (vs : List PF), lookupAll d ks = some vs →
      vs.length = ks.length
  | [], vs, h => by
      unfold lookupAll at h
      injection h with h
      rw [← h]
      rfl
  | k :: ks, vs, h => by
      unfold lookupAll at h
      cases h1 : dictGet d k with
      | none => rw [h1] at h; exact Option.noConfusion h
      | some v =>
        cases h2 : lookupAll d ks with
        | none => rw [h1, h2] at h; exact Option.noConfusion h
        | some vs' =>
          rw [h1, h2] at h
          injection h with h
          rw [← h]
          simp [lookupAll_length d ks vs' h2]

theorem dictGet_cons_of_pos (p : Int × PF) (d : Dict) (k : Int)
    (h : p.1 = k) : dictGet (p :: d) k = some p.2 := by
  unfold dictGet
  rw [List.find?_cons_of_pos _ (by simp [h])]
  rfl

theorem dictGet_cons_of_neg (p : Int × PF) (d : Dict) (k : Int)
    (h : p.1 ≠ k) : dictGet (p :: d) k = dictGet d k := by
  unfold dictGet
  rw [List.find?_cons_of_neg _ (by simp [h])]

/-- Re-associating the looked-up block against its key list recovers exactly
the lookups on the keys, and nothing else. -/
theorem dictGet_zip_lookupAll (d : Dict) :
    ∀ (ks : List Int) (vs : List PF), lookupAll d ks = some vs →
      ∀ k : Int, dictGet (List.zip ks vs) k =
        if k ∈ ks then dictGet d k else none
  | [], vs, h, k => by
      unfold lookupAll at h
      injection h with h
      rw [← h]
      simp [dictGet]
  | k₀ :: ks, vs, h, k => by
      unfold lookupAll at h
      cases h1 : dictGet d k₀ with
      | none => rw [h1] at h; exact Option.noConfusion h
      | some v₀ =>
        cases h2 : lookupAll d ks with
        | none => rw [h1, h2] at h; exact Option.noConfusion h
        | some vs' =>
          rw [h1, h2] at h
          injection h with h
          rw [← h, List.zip_cons_cons]
          by_cases hk : k = k₀
          · subst hk
            rw [dictGet_cons_of_pos _ _ _ rfl,
              if_pos (List.mem_cons_self k ks), h1]
          · rw [dictGet_cons_of_neg _ _ _ (Ne.symm hk),
              dictGet_zip_lookupAll d ks vs' h2 k]
            simp [List.mem_cons, hk]

theorem lookupBlocks_spec (ids : List Int) :
    ∀ (dss : List Dict) (bs : List (List PF)),
      lookupBlocks dss ids = some bs →
      bs.length = dss.length ∧
      ∀ i, i < dss.length →
        lookupAll (dss.getD i []) ids = some (bs.getD i [])
  | [], bs, h => by
      unfold lookupBlocks at h
      injection h with h
      rw [← h]
      exact ⟨rfl, fun i hi => absurd hi (Nat.not_lt_zero i)⟩
  | d :: dss, bs, h => by
      unfold lookupBlocks at h
      cases h1 : lookupAll d ids with
      | none => rw [h1] at h; exact Option.noConfusion h
      | some b =>
        cases h2 : lookupBlocks dss ids with
        | none => rw [h1, h2] at h; exact Option.noConfusion h
        | some bs' =>
          rw [h1, h2] at h
          injection h with h
          rw [← h]
          have ih := lookupBlocks_spec ids dss bs' h2
          refine ⟨by simp [ih.1], fun i hi => ?_⟩
          cases i with
          | zero => simpa using h1
          | succ i =>
              rw [List.getD_cons_succ, List.getD_cons_succ]
              exact ih.2 i (Nat.lt_of_succ_lt_succ hi)

theorem dictGet_eq_none_of_not_mem (d : Dict) (k : Int)
    (h : k ∉ dictKeys d) : dictGet d k = none := by
  cases hd : dictGet d k with
  | none => rfl
  | some v => exact absurd (mem_dictKeys_of_dictGet d k v hd) h

theorem dictMem_eq_isSome_dictGet (d : Dict) (k : Int) :
    dictMem d k = (dictGet d k).isSome := by
  rw [Bool.eq_iff_iff]
  unfold dictMem dictGet
  rw [List.any_eq_true]
  constructor
  · rintro ⟨p, hp, hpk⟩
    have : d.find? (fun q => q.1 == k) ≠ none := by
      rw [Ne, List.find?_eq_none]
      intro hall
      exact absurd hpk (by simpa using hall p hp)
    cases hf : d.find? (fun q => q.1 == k) with
    | none => exact absurd hf this
    | some q => simp [hf]
  · intro hs
    cases hf : d.find? (fun q => q.1 == k) with
    | none => rw [hf] at hs; simp at hs
    | some q =>
        exact ⟨q, List.mem_of_find?_eq_some hf, by simpa using List.find?_some hf⟩

theorem loaded_node_count (path : String) (f : BinFile) (dz : Bool)
    (excl : List Int) :
    (readBinaryFile path f dz excl).node_count =
      Int.ofNat f.node_id_words.length := rfl

theorem loaded_timesteps_length (path : String) (f : BinFile) (dz : Bool)
    (excl : List Int) :
    (readBinaryFile path f dz excl).timesteps.length = f.blocks.length := by
  simp [readBinaryFile, readBlocks_eq]

theorem loaded_timesteps_isEmpty (path : String) (f : BinFile) (dz : Bool)
    (excl : List Int) :
    (readBinaryFile path f dz excl).timesteps.isEmpty = f.blocks.isEmpty := by
  obtain ⟨ws, bs⟩ := f
  cases bs <;> simp [readBinaryFile, readBlocks_eq]

/-!  ## Claim theorems (first batch) -/

/-- C2 (code_bug evidence): the statistics-conditioning step maps NaN to `0`
and `+Infinity` to the largest finite float as claimed, but it maps
`-Infinity` to `sys.float_info.min = 2^-1022`, a *tiny positive* float, not
the most negative finite float `-sys.float_info.max`: the code's use of
`sys.float_info.min` as "most negative" is a slip. -/
theorem C2_condition_negative_infinity :
    condition_value PF.nan = PF.fin 0 ∧
    condition_value PF.inf = PF.fin sysFloatInfoMax ∧
    condition_value PF.ninf = PF.fin sysFloatInfoMin ∧
    0 < sysFloatInfoMin ∧ sysFloatInfoMin ≠ -sysFloatInfoMax := by
  refine ⟨rfl, rfl, rfl, ?_, ?_⟩
  · rw [sysFloatInfoMin, Rat.mkRat_eq_div]
    positivity
  · rw [sysFloatInfoMin, sysFloatInfoMax, Rat.mkRat_eq_div]
    intro h
    norm_num at h

/-- C4 (counterexample): the header is decoded with `struct.unpack("<i", ...)`,
which is *signed*: the byte pattern `00 00 00 80` (high bit of byte 3 set)
decodes node_count to `-2^31`, a negative number, not a large non-negative
count. -/
theorem C4_counterexample :
    readHeader [0, 0, 0, 128, 1, 0, 0, 0] = some (-(2 ^ 31), 1) ∧
      (-(2 ^ 31) : Int) < 0 := by
  exact ⟨by decide, by decide⟩

/-- C4 (amended): for every file of at least 8 bytes, the header read
interprets bytes 0-3 and bytes 4-7 as little-endian *signed* 32-bit integers:
when the unsigned little-endian value of the word is below `2^31` the count
equals it (and is non-negative), otherwise the count is that value minus
`2^32` (negative). -/
theorem C4_header_signed_decode (b0 b1 b2 b3 b4 b5 b6 b7 : Nat)
    (rest : List Nat) :
    readHeader (b0 :: b1 :: b2 :: b3 :: b4 :: b5 :: b6 :: b7 :: rest) =
      some
        ((if unpackLE32 b0 b1 b2 b3 < 2 ^ 31 then (unpackLE32 b0 b1 b2 b3 : Int)
          else (unpackLE32 b0 b1 b2 b3 : Int) - 2 ^ 32),
         (if unpackLE32 b4 b5 b6 b7 < 2 ^ 31 then (unpackLE32 b4 b5 b6 b7 : Int)
          else (unpackLE32 b4 b5 b6 b7 : Int) - 2 ^ 32)) := rfl

/-- C9: the header read depends only on the first 8 bytes of the file: two
files with the same 8-byte prefix give the same header, however long their
bodies are (in particular a body truncated relative to the header-declared
dimensions still yields the same counts, and no byte past offset 8 is ever
consulted). -/
theorem C9_header_only_reads_prefix (file1 file2 : List Nat)
    (h : file1.take 8 = file2.take 8) :
    readHeader file1 = readHeader file2 := by
  unfold readHeader
  rw [h]

theorem C9_witness :
    ([1, 0, 0, 0, 2, 0, 0, 0] : List Nat).take 8 =
        (([1, 0, 0, 0, 2, 0, 0, 0] ++ [7, 7, 7, 7] : List Nat)).take 8 ∧
      readHeader [1, 0, 0, 0, 2, 0, 0, 0] =
        readHeader ([1, 0, 0, 0, 2, 0, 0, 0] ++ [7, 7, 7, 7]) :=
  ⟨by decide, C9_header_only_reads_prefix _ _ (by decide)⟩

/-- C8: calling `write_binary` on a grid built with `drop_zeros=True` fails
with the sparse `ValueError` class immediately — it is the first check, before
`timesteps[0]` is touched or the output file is opened — so the model returns
no file at all (no new or partial output) and, the write being a pure
function of the grid, the grid including its `source_file` is unchanged. -/
theorem C8_sparse_write_rejected (g : SpatialBinary) (path : String)
    (h : g.drop_zeros = true) :
    writeBinary g path = Except.error WriteErr.sparse := by
  simp [writeBinary, h]

theorem C8_witness :
    writeBinary
        { drop_zeros := true, source_file := "", channel_name := "",
          node_count := 1, value_min := PF.fin 0, value_max := PF.fin 0,
          excluded_node_ids := [],
          timesteps := [[((1 : Int), PF.fin 2)]] } ("out.bin") =
      Except.error WriteErr.sparse :=
  C8_sparse_write_rejected _ _ rfl

/-- C10: when no min/max update can ever run — the file declares zero
timesteps or zero nodes, or every node id is excluded — the loaded grid
reports the untouched `__init__` sentinels: `value_min = sys.float_info.max`
(largest finite float) and `value_max = sys.float_info.min` (smallest positive
normalized float), so `value_min > value_max`; both sentinels are finite, so
the NaN/Infinity conditioning leaves them unchanged. -/
theorem C10_empty_statistics_sentinels (path : String) (f : BinFile)
    (dz : Bool) (excl : List Int)
    (h : f.blocks = [] ∨ f.node_id_words = [] ∨
      ∀ w ∈ f.node_id_words, excl.contains (toSigned32 w) = true) :
    (readBinaryFile path f dz excl).value_min = PF.fin sysFloatInfoMax ∧
    (readBinaryFile path f dz excl).value_max = PF.fin sysFloatInfoMin ∧
    sysFloatInfoMin < sysFloatInfoMax := by
  have hstats : ∀ b ∈ f.blocks,
      ∀ p ∈ List.zip (f.node_id_words.map toSigned32) b,
        excl.contains p.1 = true := by
    rcases h with h | h | h
    · simp [h]
    · simp [h]
    · intro b _ p hp
      have hfst : p.1 ∈ f.node_id_words.map toSigned32 :=
        (List.of_mem_zip hp).1
      rcases List.mem_map.mp hfst with ⟨w, hw, hww⟩
      rw [← hww]
      exact h w hw
  have key := statBlocks_id excl (f.node_id_words.map toSigned32) f.blocks
    (PF.fin sysFloatInfoMax, PF.fin sysFloatInfoMin) hstats
  refine ⟨?_, ?_, ?_⟩
  · simp [readBinaryFile, readBlocks_eq, key, condition_value]
  · simp [readBinaryFile, readBlocks_eq, key, condition_value]
  · decide

/-- Filtering pairs on their key commutes with projecting the keys. -/
theorem map_fst_filter_fst (X : Int) (l : List (Int × PF)) :
    (l.filter (fun p => p.1 != X)).map Prod.fst =
      (l.map Prod.fst).filter (fun i => i != X) := by
  induction l with
  | nil => rfl
  | cons p l ih => by_cases h : p.1 = X <;> simp [List.filter_cons, h, ih]

/-- Decoding the filtered node-id table is filtering the decoded table. -/
theorem map_toSigned32_filter (X : Int) (ws : List Nat) :
    (ws.filter (fun w => toSigned32 w != X)).map toSigned32 =
      (ws.map toSigned32).filter (fun i => i != X) := by
  induction ws with
  | nil => rfl
  | cons w ws ih => by_cases h : toSigned32 w = X <;>
      simp [List.filter_cons, h, ih]

/-- A min/max pass with exclusion set `{X}` is a plain pass over the pairs
whose node id is not `X`. -/
theorem foldl_statStep_exclusion (X : Int) :
    ∀ (l : List (Int × PF)) (mm : PF × PF),
      l.foldl (statStep [X]) mm =
        (l.filter (fun p => p.1 != X)).foldl (statStep []) mm
  | [], _ => rfl
  | p :: l, mm => by
    by_cases hx : p.1 = X
    · have h1 : statStep [X] mm p = mm := by
        simp [statStep, List.contains_cons, hx]
      have h2 : ¬((p.1 != X) = true) := by simp [hx]
      rw [List.foldl_cons, h1, List.filter_cons, if_neg h2]
      exact foldl_statStep_exclusion X l mm
    · have h1 : statStep [X] mm p = statStep [] mm p := by
        simp [statStep, List.contains_cons, hx]
      have h2 : (p.1 != X) = true := by simp [hx]
      rw [List.foldl_cons, h1, List.filter_cons, if_pos h2, List.foldl_cons]
      exact foldl_statStep_exclusion X l (statStep [] mm p)

/-- The whole-file statistics fold with exclusion `{X}` equals the fold of
the `removeNode`d file with no exclusions. -/
theorem statfold_removeNode (X : Int) (ids : List Int) (bs : List (List PF))
    (mm : PF × PF) (hlen : ∀ b ∈ bs, b.length = ids.length) :
    bs.foldl (fun m b => (List.zip ids b).foldl (statStep [X]) m) mm =
      (bs.map (fun b =>
          ((List.zip ids b).filter (fun p => p.1 != X)).map Prod.snd)).foldl
        (fun m b =>
          (List.zip (ids.filter (fun i => i != X)) b).foldl (statStep []) m)
        mm := by
  induction bs generalizing mm with
  | nil => rfl
  | cons b bs ih =>
      simp only [List.foldl_cons, List.map_cons]
      rw [← ih _ (fun b' hb' => hlen b' (List.mem_cons_of_mem b hb'))]
      congr 1
      have hb : b.length = ids.length := hlen b (List.mem_cons_self b bs)
      have hfst : ((List.zip ids b).filter (fun p => p.1 != X)).map Prod.fst =
          ids.filter (fun i => i != X) := by
        rw [map_fst_filter_fst, List.map_fst_zip ids b hb.symm.le]
      rw [← hfst, ← List.unzip_fst, ← List.unzip_snd, List.zip_unzip,
        foldl_statStep_exclusion]

/-- C7: excluding node `X` leaves the stored timesteps untouched (every value
of `X` is still stored), while the conditioned `value_min`/`value_max` equal
those of loading, with no exclusions, the file with `X`'s column removed —
i.e. the statistics are computed as if `X` were absent. -/
theorem C7_exclusion_affects_only_statistics (path : String) (f : BinFile)
    (X : Int) (dz : Bool) (hwf : f.wf) :
    (readBinaryFile path f dz [X]).timesteps =
        (readBinaryFile path f dz []).timesteps ∧
    (readBinaryFile path f dz [X]).value_min =
        (readBinaryFile path (removeNode X f) dz []).value_min ∧
    (readBinaryFile path f dz [X]).value_max =
        (readBinaryFile path (removeNode X f) dz []).value_max := by
  have key := statfold_removeNode X (f.node_id_words.map toSigned32) f.blocks
    (PF.fin sysFloatInfoMax, PF.fin sysFloatInfoMin)
    (fun b hb => by simpa using hwf.2 b hb)
  refine ⟨?_, ?_, ?_⟩
  · simp [readBinaryFile, readBlocks_eq]
  · simp only [readBinaryFile, readBlocks_eq, removeNode,
      map_toSigned32_filter]
    rw [key]
  · simp only [readBinaryFile, readBlocks_eq, removeNode,
      map_toSigned32_filter]
    rw [key]

theorem C7_witness :
    (readBinaryFile ("r.bin") ⟨[1, 2], [[PF.fin 5, PF.fin 7]]⟩ false
        [1]).timesteps =
      (readBinaryFile ("r.bin") ⟨[1, 2], [[PF.fin 5, PF.fin 7]]⟩ false
        []).timesteps ∧
    (readBinaryFile ("r.bin") ⟨[1, 2], [[PF.fin 5, PF.fin 7]]⟩ false
        [1]).value_min =
      (readBinaryFile ("r.bin")
        (removeNode 1 ⟨[1, 2], [[PF.fin 5, PF.fin 7]]⟩) false []).value_min ∧
    (readBinaryFile ("r.bin") ⟨[1, 2], [[PF.fin 5, PF.fin 7]]⟩ false
        [1]).value_max =
      (readBinaryFile ("r.bin")
        (removeNode 1 ⟨[1, 2], [[PF.fin 5, PF.fin 7]]⟩) false []).value_max :=
  C7_exclusion_affects_only_statistics ("r.bin")
    ⟨[1, 2], [[PF.fin 5, PF.fin 7]]⟩ 1 false (by decide)

/-- C1: round-trip.  For a dense grid `g` loaded (`drop_zeros=False`) from a
well-formed file, whose timestep dicts all share one key set, a successful
`write_binary` followed by a fresh dense load of the written file yields a
grid with the same number of timesteps, the same first-timestep node-id set,
and the same value at every (node id, timestep) pair. -/
theorem C1_round_trip (p p' p'' : String) (f0 : BinFile) (excl : List Int)
    (g : SpatialBinary) (fW : BinFile) (g' : SpatialBinary)
    (hwf : f0.wf) (hg : g = readBinaryFile p f0 false excl)
    (hsame : ∀ t1 ∈ g.timesteps, ∀ t2 ∈ g.timesteps,
      ∀ k ∈ dictKeys t1, dictMem t2 k = true)
    (hok : writeBinary g p' = Except.ok (fW, g')) :
    (readBinaryFile p'' fW false []).timesteps.length =
        g.timesteps.length ∧
    (∀ k : Int,
      dictMem ((readBinaryFile p'' fW false []).timesteps.getD 0 []) k =
        dictMem (g.timesteps.getD 0 []) k) ∧
    (∀ (i : Nat) (k : Int),
      dictGet ((readBinaryFile p'' fW false []).timesteps.getD i []) k =
        dictGet (g.timesteps.getD i []) k) := by
  subst hg
  simp only [writeBinary] at hok
  split at hok
  · exact Except.noConfusion hok
  split at hok
  · exact Except.noConfusion hok
  rename_i ts0 rest heqts
  split at hok
  · exact Except.noConfusion hok
  rename_i hrange
  split at hok
  · exact Except.noConfusion hok
  rename_i hcnt
  split at hok
  · exact Except.noConfusion hok
  rename_i blocks hblocks
  injection hok with hok
  injection hok with hok1 hok2
  subst hok1
  subst hok2
  set G := readBinaryFile p f0 false excl with hG
  set sids := List.insertionSort (fun a b => a ≤ b) (dictKeys ts0) with hsids
  have hrange' : ∀ k ∈ sids, 0 ≤ k ∧ k < 2 ^ 32 := not_not.mp hrange
  have hts0mem : ts0 ∈ G.timesteps := by
    rw [heqts]
    exact List.mem_cons_self ts0 rest
  have hnodup0 : (dictKeys ts0).Nodup :=
    loaded_timesteps_nodup p f0 false excl ts0 hts0mem
  have hperm : List.Perm sids (dictKeys ts0) := List.perm_insertionSort _ _
  have hnodup_s : sids.Nodup := (hperm.nodup_iff).mpr hnodup0
  have hkeyssub : ∀ k ∈ dictKeys ts0, k ∈ f0.node_id_words.map toSigned32 :=
    loaded_timesteps_keys p f0 false excl hwf ts0 hts0mem
  have hsids_lt : ∀ k ∈ sids, 0 ≤ k ∧ k < 2 ^ 31 := by
    intro k hk
    refine ⟨(hrange' k hk).1, ?_⟩
    rcases List.mem_map.mp (hkeyssub k (hperm.mem_iff.mp hk))
      with ⟨w, hw, hww⟩
    have hr := toSigned32_range w (hwf.1 w hw)
    rw [hww] at hr
    exact hr.2
  have hids2 : List.map toSigned32 (List.map Int.toNat sids) = sids := by
    rw [List.map_map]
    have hpt : ∀ k ∈ sids, (toSigned32 ∘ Int.toNat) k = id k := fun k hk =>
      toSigned32_toNat k (hsids_lt k hk).1 (hsids_lt k hk).2
    rw [List.map_congr_left hpt, List.map_id]
  have hlspec := lookupBlocks_spec sids G.timesteps blocks hblocks
  have hlen2 :
      (readBinaryFile p'' ⟨sids.map Int.toNat, blocks⟩ false
        []).timesteps.length = G.timesteps.length := by
    rw [loaded_timesteps_length]
    exact hlspec.1
  have hG2 : (readBinaryFile p'' ⟨sids.map Int.toNat, blocks⟩ false
      []).timesteps =
      blocks.map (fun b => (List.zip sids b).foldl (entryStep false) []) := by
    simp only [readBinaryFile, readBlocks_eq]
    rw [hids2]
  have hget : ∀ (i : Nat) (k : Int),
      dictGet ((readBinaryFile p'' ⟨sids.map Int.toNat, blocks⟩ false
          []).timesteps.getD i []) k =
        dictGet (G.timesteps.getD i []) k := by
    intro i k
    by_cases hi : i < G.timesteps.length
    · have hi' : i < blocks.length := by
        rw [hlspec.1]
        exact hi
      have hla : lookupAll (G.timesteps.getD i []) sids =
          some (blocks.getD i []) := hlspec.2 i hi
      have hstep : (blocks.map
            (fun b => (List.zip sids b).foldl (entryStep false) [])).getD
            i [] =
          (List.zip sids (blocks.getD i [])).foldl (entryStep false) [] := by
        rw [List.getD_eq_getElem _ _ (by simpa using hi'),
          List.getElem_map, List.getD_eq_getElem _ _ hi']
      have hblen : (blocks.getD i []).length = sids.length :=
        lookupAll_length _ _ _ hla
      have hfst : List.map Prod.fst (List.zip sids (blocks.getD i [])) =
          sids := List.map_fst_zip _ _ (le_of_eq hblen.symm)
      have hzipeq : (List.zip sids (blocks.getD i [])).foldl
          (entryStep false) [] = List.zip sids (blocks.getD i []) := by
        rw [foldl_entryStep_append false _ []
          (fun a ha _ => absurd ha (List.not_mem_nil a))
          (by rw [hfst]; exact hnodup_s)]
        simp
      rw [hG2, hstep, hzipeq, dictGet_zip_lookupAll _ _ _ hla k]
      by_cases hks : k ∈ sids
      · rw [if_pos hks]
      · rw [if_neg hks]
        refine (dictGet_eq_none_of_not_mem _ k ?_).symm
        intro hkmem
        have htsi : G.timesteps.getD i [] ∈ G.timesteps := by
          rw [List.getD_eq_getElem _ _ hi]
          exact List.getElem_mem hi
        have hmem0 := hsame _ htsi ts0 hts0mem k hkmem
        exact hks (hperm.mem_iff.mpr ((dictMem_eq_true_iff ts0 k).mp hmem0))
    · have hi1 : G.timesteps.length ≤ i := Nat.le_of_not_lt hi
      have hi2 : (readBinaryFile p'' ⟨sids.map Int.toNat, blocks⟩ false
          []).timesteps.length ≤ i := by
        rw [hlen2]
        exact hi1
      rw [List.getD_eq_default _ _ hi1, List.getD_eq_default _ _ hi2]
  refine ⟨hlen2, ?_, hget⟩
  intro k
  rw [dictMem_eq_isSome_dictGet, dictMem_eq_isSome_dictGet, hget 0 k]

theorem C1_witness :
    dictGet ((readBinaryFile ("z") ⟨[10, 20], [[PF.fin 0, PF.fin 1]]⟩ false
        []).timesteps.getD 0 []) 20 =
      dictGet ((readBinaryFile ("x") ⟨[20, 10], [[PF.fin 1, PF.fin 0]]⟩ false
        []).timesteps.getD 0 []) 20 :=
  (C1_round_trip ("x") ("y") ("z") ⟨[20, 10], [[PF.fin 1, PF.fin 0]]⟩ []
      (readBinaryFile ("x") ⟨[20, 10], [[PF.fin 1, PF.fin 0]]⟩ false [])
      ⟨[10, 20], [[PF.fin 0, PF.fin 1]]⟩
      { drop_zeros := false, source_file := "y", channel_name := "",
        node_count := 2, value_min := PF.fin 0, value_max := PF.fin 1,
        excluded_node_ids := [],
        timesteps := [[((20 : Int), PF.fin 1), ((10 : Int), PF.fin 0)]] }
      (by decide) rfl (by decide) (by decide)).2.2 0 20

/-- C5: for two same-shaped dense grids combined with the add combiner, every
(node, timestep) value of the result is the sum of the two inputs' values at
that pair; and on the concrete two-node scenario the result's timestep 0 is
`{10: 5.0, 20: 9.0}` with the min/max recomputed from the combined values
alone (from the `sys.float_info` sentinels, not the inputs' ranges):
`value_min = 5.0`, `value_max = 9.0`. -/
theorem C5_combine_add_correct (p1 p2 nm : String) (f1 f2 : BinFile)
    (g : SpatialBinary)
    (hok : combine p1 f1 p2 f2 nm add_combiner = Except.ok g) :
    (∀ i k v1 v2,
        dictGet ((readBinaryFile p1 f1 false []).timesteps.getD i []) k =
            some v1 →
        dictGet ((readBinaryFile p2 f2 false []).timesteps.getD i []) k =
            some v2 →
        dictGet (g.timesteps.getD i []) k = some (add_combiner v1 v2)) ∧
    (combine ("A") ⟨[10, 20], [[PF.fin 3, PF.fin 4]]⟩ ("B")
        ⟨[10, 20], [[PF.fin 2, PF.fin 5]]⟩ ("Sum") add_combiner).map
        (fun gc => (gc.timesteps.getD 0 [], gc.value_min, gc.value_max)) =
      Except.ok ([(10, PF.fin 5), (20, PF.fin 9)], PF.fin 5, PF.fin 9) := by
  refine ⟨?_, by decide⟩
  simp only [combine] at hok
  split at hok
  · exact Except.noConfusion hok
  split at hok
  · exact Except.noConfusion hok
  split at hok
  · exact Except.noConfusion hok
  split at hok
  · exact Except.noConfusion hok
  split at hok
  · exact Except.noConfusion hok
  split at hok
  · exact Except.noConfusion hok
  next ds mmf heq =>
    injection hok with hok
    subst hok
    intro i k v1 v2 hv1 hv2
    exact (combineSteps_spec add_combiner _ _ _ ds mmf heq
      (loaded_timesteps_nodup p1 f1 false [])).2 i k v1 v2 hv1 hv2

theorem C5_witness :
    dictGet
        (({ drop_zeros := false, source_file := "", channel_name := "Sum",
            node_count := 2, value_min := PF.fin 5, value_max := PF.fin 9,
            excluded_node_ids := [],
            timesteps :=
              [[((10 : Int), PF.fin 5), ((20 : Int), PF.fin 9)]] } :
          SpatialBinary).timesteps.getD 0 []) 10 =
      some (add_combiner (PF.fin 3) (PF.fin 2)) :=
  (C5_combine_add_correct ("A") ("B") ("Sum")
      ⟨[10, 20], [[PF.fin 3, PF.fin 4]]⟩ ⟨[10, 20], [[PF.fin 2, PF.fin 5]]⟩
      { drop_zeros := false, source_file := "", channel_name := "Sum",
        node_count := 2, value_min := PF.fin 5, value_max := PF.fin 9,
        excluded_node_ids := [],
        timesteps := [[((10 : Int), PF.fin 5), ((20 : Int), PF.fin 9)]] }
      (by decide)).1 0 10 (PF.fin 3) (PF.fin 2) (by decide) (by decide)

/-- C3 (counterexample): two dense files over the same node-id *set*
`{10, 20}`, listed in different orders, satisfy the claim's order-insensitive
precondition, yet `combine` rejects them with the node-ids mismatch error:
the code compares `list(timesteps[0].keys())` as ordered lists. -/
theorem C3_counterexample :
    (combine ("A") ⟨[10, 20], [[PF.fin 3, PF.fin 4]]⟩ ("B")
        ⟨[20, 10], [[PF.fin 2, PF.fin 5]]⟩ ("Sum") add_combiner =
      Except.error ("Combine's inputs do not represent the same node ids.")) ∧
    ([10, 20] : List Int).toFinset = ([20, 10] : List Int).toFinset :=
  ⟨by decide, by decide⟩

/-- C3 (amended): `combine` fails fast — before any combination work — with a
distinct descriptive error when the node counts differ, when the timestep
counts differ, or when the first-timestep node-id *lists in insertion order*
differ; the node-id comparison is order-sensitive list equality (so equal
sets listed in different orders are also rejected). -/
theorem C3_combine_preconditions (p1 p2 nm : String) (f1 f2 : BinFile)
    (fn : PF → PF → PF) :
    (f1.node_id_words.length ≠ f2.node_id_words.length →
      combine p1 f1 p2 f2 nm fn =
        Except.error
          ("Combine's inputs do not represent the same number of nodes.")) ∧
    (f1.node_id_words.length = f2.node_id_words.length →
      f1.blocks.length ≠ f2.blocks.length →
      combine p1 f1 p2 f2 nm fn =
        Except.error
          ("Combine's inputs do not represent the same number of timesteps.")) ∧
    (f1.node_id_words.length = f2.node_id_words.length →
      f1.blocks.length = f2.blocks.length →
      f1.blocks ≠ [] →
      dictKeys ((readBinaryFile p1 f1 false []).timesteps.headI) ≠
        dictKeys ((readBinaryFile p2 f2 false []).timesteps.headI) →
      combine p1 f1 p2 f2 nm fn =
        Except.error
          ("Combine's inputs do not represent the same node ids.")) := by
  have hdz : ¬(((readBinaryFile p1 f1 false []).drop_zeros ||
      (readBinaryFile p2 f2 false []).drop_zeros) = true) := by
    simp [readBinaryFile]
  have hnceq : f1.node_id_words.length = f2.node_id_words.length →
      (readBinaryFile p1 f1 false []).node_count =
        (readBinaryFile p2 f2 false []).node_count := by
    intro h1
    rw [loaded_node_count, loaded_node_count, h1]
  refine ⟨?_, ?_, ?_⟩
  · intro h1
    simp only [combine]
    rw [if_neg hdz, if_pos ?_]
    intro hc
    rw [loaded_node_count, loaded_node_count] at hc
    exact h1 (Int.ofNat.inj hc)
  · intro h1 h2
    simp only [combine]
    rw [if_neg hdz, if_neg (not_not_intro (hnceq h1)), if_pos ?_]
    rw [loaded_timesteps_length, loaded_timesteps_length]
    exact h2
  · intro h1 h2 h3 h4
    simp only [combine]
    rw [if_neg hdz, if_neg (not_not_intro (hnceq h1)),
      if_neg (not_not_intro ?_), if_neg ?_, if_pos h4]
    · rw [loaded_timesteps_isEmpty]
      simp [h3]
    · rw [loaded_timesteps_length, loaded_timesteps_length, h2]

theorem C3_witness :
    combine ("A") ⟨[1], [[PF.fin 1]]⟩ ("B") ⟨[1, 2], [[PF.fin 1, PF.fin 2]]⟩
        ("x") add_combiner =
      Except.error
        ("Combine's inputs do not represent the same number of nodes.") :=
  (C3_combine_preconditions ("A") ("B") ("x") ⟨[1], [[PF.fin 1]]⟩
      ⟨[1, 2], [[PF.fin 1, PF.fin 2]]⟩ add_combiner).1 (by decide)

/-- C6: loading with `drop_zeros=True` and with `drop_zeros=False` yields
identical conditioned `value_min`/`value_max` (the running statistics are
updated before the zero-drop decision), and each sparse timestep dict is the
corresponding dense dict with exactly the zero-valued entries removed. -/
theorem C6_zero_dropping_preserves_statistics (path : String) (f : BinFile)
    (excl : List Int) (hwf : f.wf)
    (hnodup : (f.node_id_words.map toSigned32).Nodup) :
    (readBinaryFile path f true excl).value_min =
        (readBinaryFile path f false excl).value_min ∧
    (readBinaryFile path f true excl).value_max =
        (readBinaryFile path f false excl).value_max ∧
    (readBinaryFile path f true excl).timesteps =
      (readBinaryFile path f false excl).timesteps.map
        (fun d => d.filter (fun p => !p.2.isZero)) := by
  refine ⟨?_, ?_, ?_⟩
  · simp [readBinaryFile, readBlocks_eq]
  · simp [readBinaryFile, readBlocks_eq]
  · simp only [readBinaryFile, readBlocks_eq, List.map_map]
    refine List.map_congr_left ?_
    intro b hb
    have hlen : b.length = f.node_id_words.length := hwf.2 b hb
    have hfst : List.map Prod.fst
        (List.zip (f.node_id_words.map toSigned32) b) =
        f.node_id_words.map toSigned32 :=
      List.map_fst_zip _ _ (by simp [hlen])
    have hdisj : (dictKeys []).Disjoint
        ((List.zip (f.node_id_words.map toSigned32) b).map Prod.fst) :=
      fun a ha _ => absurd ha (List.not_mem_nil a)
    have hnd : ((List.zip (f.node_id_words.map toSigned32) b).map
        Prod.fst).Nodup := by rw [hfst]; exact hnodup
    simp only [Function.comp_apply]
    rw [foldl_entryStep_append true _ [] hdisj hnd,
      foldl_entryStep_append false _ [] hdisj hnd]
    simp

theorem C6_witness :
    (readBinaryFile ("r.bin") ⟨[1, 2], [[PF.fin 0, PF.fin 3]]⟩ true
        []).value_min =
      (readBinaryFile ("r.bin") ⟨[1, 2], [[PF.fin 0, PF.fin 3]]⟩ false
        []).value_min ∧
    (readBinaryFile ("r.bin") ⟨[1, 2], [[PF.fin 0, PF.fin 3]]⟩ true
        []).value_max =
      (readBinaryFile ("r.bin") ⟨[1, 2], [[PF.fin 0, PF.fin 3]]⟩ false
        []).value_max ∧
    (readBinaryFile ("r.bin") ⟨[1, 2], [[PF.fin 0, PF.fin 3]]⟩ true
        []).timesteps =
      (readBinaryFile ("r.bin") ⟨[1, 2], [[PF.fin 0, PF.fin 3]]⟩ false
        []).timesteps.map (fun d => d.filter (fun p => !p.2.isZero)) :=
  C6_zero_dropping_preserves_statistics ("r.bin")
    ⟨[1, 2], [[PF.fin 0, PF.fin 3]]⟩ [] (by decide) (by decide)

theorem C10_witness :
    (readBinaryFile ("empty.bin") ⟨[], []⟩ false []).value_min =
        PF.fin sysFloatInfoMax ∧
      (readBinaryFile ("empty.bin") ⟨[], []⟩ false []).value_max =
        PF.fin sysFloatInfoMin ∧
      sysFloatInfoMin < sysFloatInfoMax :=
  C10_empty_statistics_sentinels ("empty.bin") ⟨[], []⟩ false [] (Or.inl rfl)

end VisTools
